import Mathlib

/-!
Verification of the SQLite queue manager (`src/sqlite-queue.js`).

The JavaScript class `SQLiteQueueManager` is shallowly embedded as a pure
state-transformer semantics over a `SQLiteQueueManager` record.  Modelling
decisions (each noted again at the relevant definition):

* The SQLite table `message_queue` is modelled as a list of rows kept in
  rowid (= `id`) order.  `id INTEGER PRIMARY KEY AUTOINCREMENT` makes `id`
  the rowid; SQLite stores rowid tables as B-trees keyed by rowid, and a
  full scan (`SELECT *` with no `ORDER BY`, line 133 of the source) yields
  rows in ascending rowid order.  `AUTOINCREMENT` keeps the last assigned
  id in `sqlite_sequence` (persisted in the database file), so fresh ids
  are strictly larger than every id ever assigned, even across deletes and
  across close/reopen; this persistent counter is the `seq` field.
* `JSON.stringify` (line 92 of the source) is modelled on a JSON value
  type whose numbers are integers: the float-formatting leg of JavaScript
  number serialization is outside the embedding, while the structural and
  string-escaping parts (the interesting parts for losslessness) are
  modelled exactly (ECMA-262 `QuoteJSONString`: `\"`, `\\`, `\b`, `\t`,
  `\n`, `\f`, `\r`, and `\u00XX` with lowercase hex for other control
  characters).
* Underlying storage I/O failures of individual statements (which the
  source surfaces by rejecting the promise with the sqlite error) are not
  injected; the only failure modelled for the mutating operations is the
  `if (!this.db) throw new Error("Database not initialized")` guard that
  precedes any I/O.  For `initializeDatabase` the schema-creation failure
  IS modelled (parameter `schemaOk`), because the handle assignment on
  line 35 happens before the `CREATE TABLE` callback can fail.
* Wall-clock timestamps (`timestamp DATETIME DEFAULT CURRENT_TIMESTAMP`)
  are not modelled; no claim depends on them, and ordering is by `id`.
-/

/-! ## JSON values

JavaScript payloads that are JSON-compatible: objects, arrays, strings,
numbers (restricted to integers here, see the header), booleans, null.
Arrays and objects are mutual inductives rather than nested `List`s so
that mutual structural induction is available. -/

mutual
inductive JsonVal : Type where
  | null : JsonVal
  | bool (b : Bool) : JsonVal
  | num (n : Int) : JsonVal
  | str (s : String) : JsonVal
  | arr (elems : JsonArr) : JsonVal
  | obj (fields : JsonObj) : JsonVal

inductive JsonArr : Type where
  | nil : JsonArr
  | cons (hd : JsonVal) (tl : JsonArr) : JsonArr

inductive JsonObj : Type where
  | nil : JsonObj
  | cons (key : String) (val : JsonVal) (tl : JsonObj) : JsonObj
end

/-- Decimal digits of a natural number, most significant first, as
characters (`Nat.digits` is little-endian, hence the `reverse`). -/
def natChars (m : Nat) : List Char :=
  if m = 0 then ['0'] else ((Nat.digits 10 m).map Nat.digitChar).reverse

/-- Decimal rendering of an integer, as `JSON.stringify` prints an
integral JavaScript number. -/
def intChars (n : Int) : List Char :=
  if n < 0 then '-' :: natChars n.natAbs else natChars n.toNat

/-- Escaping of one character inside a JSON string literal, exactly the
ECMA-262 `QuoteJSONString` rules used by `JSON.stringify`. -/
def escChar (c : Char) : List Char :=
  if c = '"' then ['\\', '"']
  else if c = '\\' then ['\\', '\\']
  else if c = '\x08' then ['\\', 'b']
  else if c = '\x09' then ['\\', 't']
  else if c = '\x0a' then ['\\', 'n']
  else if c = '\x0c' then ['\\', 'f']
  else if c = '\x0d' then ['\\', 'r']
  else if c.toNat < 0x20 then
    ['\\', 'u', '0', '0', Nat.digitChar (c.toNat / 16), Nat.digitChar (c.toNat % 16)]
  else [c]

/-- Escaping of a whole string body. -/
def escChars : List Char → List Char
  | [] => []
  | c :: cs => escChar c ++ escChars cs

mutual
/-- Character stream produced by `JSON.stringify` for a value. -/
def jchars : JsonVal → List Char
  | .null => 'n' :: 'u' :: 'l' :: 'l' :: []
  | .bool true => 't' :: 'r' :: 'u' :: 'e' :: []
  | .bool false => 'f' :: 'a' :: 'l' :: 's' :: 'e' :: []
  | .num n => intChars n
  | .str s => '"' :: (escChars s.data ++ ['"'])
  | .arr es => '[' :: (arrChars es ++ [']'])
  | .obj fs => '\x7b' :: (objChars fs ++ ['\x7d'])

/-- Comma-separated element list of a JSON array. -/
def arrChars : JsonArr → List Char
  | .nil => []
  | .cons e .nil => jchars e
  | .cons e tl => jchars e ++ ',' :: arrChars tl

/-- Comma-separated `"key":value` list of a JSON object. -/
def objChars : JsonObj → List Char
  | .nil => []
  | .cons k v .nil => '"' :: (escChars k.data ++ '"' :: ':' :: jchars v)
  | .cons k v tl =>
      ('"' :: (escChars k.data ++ '"' :: ':' :: jchars v)) ++ ',' :: objChars tl
end

/-- Model of `JSON.stringify` (source line 92), restricted to integral
numbers as explained in the file header. -/
def jstringify (j : JsonVal) : String := String.mk (jchars j)

/-! ## A decoder witnessing that the encoding is lossless

The source never deserializes (only `JSON.stringify` appears); the spec
demands the textual encoding be "reversible without loss".  The decoder
below is the reversal witness: it is deliberately minimal (it accepts
exactly the serializer's output format, no interstitial whitespace, while
JavaScript's `JSON.parse` accepts a superset). -/

/-- Value of one hexadecimal digit character. -/
def hexVal (c : Char) : Option Nat :=
  if '0' ≤ c ∧ c ≤ '9' then some (c.toNat - 48)
  else if 'a' ≤ c ∧ c ≤ 'f' then some (c.toNat - 87)
  else if 'A' ≤ c ∧ c ≤ 'F' then some (c.toNat - 55)
  else none

/-- Decode the body of a JSON string literal up to and including the
closing quote; returns the decoded characters and the rest of the
input. -/
def parseStrBody : List Char → Option (List Char × List Char)
  | [] => none
  | c :: rest =>
    if c = '"' then some ([], rest)
    else if c = '\\' then
      match rest with
      | [] => none
      | e :: rest2 =>
        if e = '"' then (parseStrBody rest2).map (fun p => ('"' :: p.1, p.2))
        else if e = '\\' then (parseStrBody rest2).map (fun p => ('\\' :: p.1, p.2))
        else if e = 'b' then (parseStrBody rest2).map (fun p => ('\x08' :: p.1, p.2))
        else if e = 't' then (parseStrBody rest2).map (fun p => ('\x09' :: p.1, p.2))
        else if e = 'n' then (parseStrBody rest2).map (fun p => ('\x0a' :: p.1, p.2))
        else if e = 'f' then (parseStrBody rest2).map (fun p => ('\x0c' :: p.1, p.2))
        else if e = 'r' then (parseStrBody rest2).map (fun p => ('\x0d' :: p.1, p.2))
        else if e = 'u' then
          match rest2 with
          | h1 :: h2 :: h3 :: h4 :: rest3 =>
            match hexVal h1, hexVal h2, hexVal h3, hexVal h4 with
            | some v1, some v2, some v3, some v4 =>
                (parseStrBody rest3).map
                  (fun p => (Char.ofNat (((v1 * 16 + v2) * 16 + v3) * 16 + v4) :: p.1, p.2))
            | _, _, _, _ => none
          | _ => none
        else none
    else (parseStrBody rest).map (fun p => (c :: p.1, p.2))

/-- Value of a big-endian digit-character run. -/
def digitsToNat (ds : List Char) : Nat :=
  ds.foldl (fun a c => a * 10 + (c.toNat - 48)) 0

/-- Decode a maximal run of decimal digits. -/
def parseNatNum (input : List Char) : Option (Nat × List Char) :=
  if (input.takeWhile Char.isDigit).isEmpty then none
  else some (digitsToNat (input.takeWhile Char.isDigit), input.dropWhile Char.isDigit)

/-- Input positions at which a serialized number can stop: end of input
or a non-digit character (inside serialized output these are `,`, `]`,
the closing brace, or nothing). -/
def restOk : List Char → Bool
  | [] => true
  | c :: _ => !c.isDigit

mutual
/-- Fuelled JSON value decoder. -/
def parseVal : Nat → List Char → Option (JsonVal × List Char)
  | 0, _ => none
  | f + 1, input =>
    match input with
    | [] => none
    | c :: rest =>
      if c = 'n' then
        match rest with
        | 'u' :: 'l' :: 'l' :: r => some (.null, r)
        | _ => none
      else if c = 't' then
        match rest with
        | 'r' :: 'u' :: 'e' :: r => some (.bool true, r)
        | _ => none
      else if c = 'f' then
        match rest with
        | 'a' :: 'l' :: 's' :: 'e' :: r => some (.bool false, r)
        | _ => none
      else if c = '"' then
        (parseStrBody rest).map (fun p => (.str (String.mk p.1), p.2))
      else if c = '[' then
        (parseItems f rest).map (fun p => (.arr p.1, p.2))
      else if c = '\x7b' then
        (parseFields f rest).map (fun p => (.obj p.1, p.2))
      else if c = '-' then
        (parseNatNum rest).map (fun p => (.num (-(p.1 : Int)), p.2))
      else
        (parseNatNum (c :: rest)).map (fun p => (.num (p.1 : Int), p.2))

/-- Fuelled decoder for the inside of a JSON array (after the `[`). -/
def parseItems : Nat → List Char → Option (JsonArr × List Char)
  | 0, _ => none
  | f + 1, input =>
    match input with
    | [] => none
    | c :: restI =>
      if c = ']' then some (.nil, restI)
      else
        match parseVal f (c :: restI) with
        | none => none
        | some (v, r) =>
          match r with
          | ',' :: r2 => (parseItems f r2).map (fun p => (.cons v p.1, p.2))
          | ']' :: r2 => some (.cons v .nil, r2)
          | _ => none

/-- Fuelled decoder for the inside of a JSON object (after the
opening brace). -/
def parseFields : Nat → List Char → Option (JsonObj × List Char)
  | 0, _ => none
  | f + 1, input =>
    match input with
    | [] => none
    | c :: restI =>
      if c = '\x7d' then some (.nil, restI)
      else if c = '"' then
        match parseStrBody restI with
        | none => none
        | some (k, r1) =>
          match r1 with
          | ':' :: r2 =>
            match parseVal f r2 with
            | none => none
            | some (v, r3) =>
              match r3 with
              | ',' :: r4 => (parseFields f r4).map (fun p => (.cons (String.mk k) v p.1, p.2))
              | '\x7d' :: r4 => some (.cons (String.mk k) v .nil, r4)
              | _ => none
          | _ => none
      else none
end

/-- Top-level decoder: the inverse of `jstringify`. -/
def jparse (s : String) : Option JsonVal :=
  match parseVal (s.data.length + 1) s.data with
  | some (j, []) => some j
  | _ => none

mutual
/-- Fuel sufficient for `parseVal` to decode this value. -/
def sizeV : JsonVal → Nat
  | .null => 1
  | .bool _ => 1
  | .num _ => 1
  | .str _ => 1
  | .arr es => 1 + sizeA es
  | .obj fs => 1 + sizeF fs

/-- Fuel sufficient for `parseItems` to decode this element list. -/
def sizeA : JsonArr → Nat
  | .nil => 1
  | .cons e tl => 1 + max (sizeV e) (sizeA tl)

/-- Fuel sufficient for `parseFields` to decode this field list. -/
def sizeF : JsonObj → Nat
  | .nil => 1
  | .cons _ v tl => 1 + max (sizeV v) (sizeF tl)
end

/-! ## The queue manager -/

/-- Error taxonomy of the operations, from the rejection sites in the
source (the spec's names; `notInitialized` is the
`Error("Database not initialized")` thrown on lines 89, 111, 169). -/
inductive QErr : Type where
  | notInitialized : QErr
  | schemaError : QErr
  deriving Repr, DecidableEq

/-- One row of the `message_queue` table (schema on lines 41-48).
`retain` is stored as the integer `0`/`1` (line 96: `retain ? 1 : 0`);
the wall-clock `timestamp` column is not modelled (file header). -/
structure Row : Type where
  id : Nat
  topic : String
  payload : String
  qos : Int
  retain : Nat
  deriving Repr, DecidableEq

/-- State of one `SQLiteQueueManager` instance together with the durable
content of its backing file.  `db`/`dbInitialized` are the object fields
from the constructor (lines 12-14), with `db = none` for JavaScript
`null` and `some h` a handle.  `table` is the durable `message_queue`
content in rowid order and `seq` the durable `AUTOINCREMENT` sequence
(file header).  `mkdirs`, `opens` and `schemaRuns` count the side
effects of `fs.mkdirSync`, `new sqlite3.Database` and the `CREATE TABLE`
statement, so that "no side effects" is expressible. -/
structure SQLiteQueueManager : Type where
  brokerId : String
  db : Option Nat
  dbInitialized : Bool
  table : List Row
  seq : Nat
  mkdirs : Nat
  opens : Nat
  schemaRuns : Nat
  deriving Repr, DecidableEq

/-- The constructor (lines 11-15): handle `null`, flag `false`; a fresh
broker identity also starts with an empty durable file. -/
def newSQLiteQueueManager (brokerId : String) : SQLiteQueueManager :=
  { brokerId := brokerId
    db := none
    dbInitialized := false
    table := []
    seq := 0
    mkdirs := 0
    opens := 0
    schemaRuns := 0 }

/-- Lines 21-57.  Early return when `this.dbInitialized && this.db`
(line 22).  Otherwise: create the data directory if absent (lines 27-30,
`dirExists` says whether it already exists), assign `this.db` to a fresh
handle (line 35; the assignment happens before the open/creation
callbacks run), run `CREATE TABLE IF NOT EXISTS` (which preserves the
durable `table` and `seq`), and either set `dbInitialized` and resolve
with the handle, or reject with the schema error while `this.db` stays
assigned (`schemaOk` says whether the `CREATE TABLE` callback got an
error).  The open-failure rejection of line 36 is not modelled (file
header). -/
def initializeDatabase (dirExists schemaOk : Bool) (st : SQLiteQueueManager) :
    Except QErr Nat × SQLiteQueueManager :=
  if st.dbInitialized ∧ st.db.isSome then (Except.ok (st.db.getD 0), st)
  else
    let st1 := if dirExists then st else { st with mkdirs := st.mkdirs + 1 }
    let h := st1.opens + 1
    let st2 := { st1 with db := some h, opens := h, schemaRuns := st1.schemaRuns + 1 }
    if schemaOk then (Except.ok h, { st2 with dbInitialized := true })
    else (Except.error QErr.schemaError, st2)

/-- Lines 63-77: `SELECT COUNT(*)`; returns `0` when `this.db` is
null. -/
def getQueueLength (st : SQLiteQueueManager) : Nat :=
  if st.db.isNone then 0 else st.table.length

/-- Lines 87-103: guard on `this.db` (lines 88-90), serialize the
payload with `JSON.stringify` (line 92), then
`INSERT INTO message_queue (topic, payload, qos, retain)` (lines 94-96).
`AUTOINCREMENT` assigns `seq + 1` and the new row is appended in rowid
order.  The JavaScript defaults are `qos = 0`, `retain = false`.  No
check of any kind is made on `topic`; the schema's `NOT NULL` is
satisfied by every string, including the empty string. -/
def addMessageToQueue (topic : String) (payload : JsonVal) (qos : Int) (retain : Bool)
    (st : SQLiteQueueManager) : Except QErr Unit × SQLiteQueueManager :=
  if st.db.isNone then (Except.error QErr.notInitialized, st)
  else
    let payloadStr := jstringify payload
    (Except.ok (),
      { st with
          table := st.table ++
            [{ id := st.seq + 1, topic := topic, payload := payloadStr, qos := qos,
               retain := if retain then 1 else 0 }]
          seq := st.seq + 1 })

/-- Lines 109-120: guard on `this.db`, then
`DELETE FROM message_queue WHERE id = (SELECT MIN(id) FROM message_queue)`.
On an empty table `MIN(id)` is SQL `NULL` and the comparison matches no
row, so the statement is a no-op. -/
def removeOldestMessage (st : SQLiteQueueManager) :
    Except QErr Unit × SQLiteQueueManager :=
  if st.db.isNone then (Except.error QErr.notInitialized, st)
  else
    match (st.table.map Row.id).min? with
    | none => (Except.ok (), st)
    | some m => (Except.ok (), { st with table := st.table.filter (fun r => decide (r.id ≠ m)) })

/-- Lines 127-141: `SELECT * FROM message_queue LIMIT ?`; returns `[]`
when `this.db` is null.  SQLite's `LIMIT` with a negative value means no
limit at all; the full-scan row order is rowid order (file header).  The
JavaScript default argument is `limit = 500`
(`getMessagesFromQueueDefault`). -/
def getMessagesFromQueue (limit : Int) (st : SQLiteQueueManager) : List Row :=
  if st.db.isNone then []
  else if limit < 0 then st.table
  else st.table.take limit.toNat

/-- Line 127's default argument `limit = 500`. -/
def getMessagesFromQueueDefault (st : SQLiteQueueManager) : List Row :=
  getMessagesFromQueue 500 st

/-- Lines 148-160: silent early return when `!this.db` or
`messageIds.length === 0`, otherwise
`DELETE FROM message_queue WHERE id IN (...)`. -/
def removeMessagesFromQueue (messageIds : List Nat) (st : SQLiteQueueManager) :
    Except QErr Unit × SQLiteQueueManager :=
  if st.db.isNone ∨ messageIds.length = 0 then (Except.ok (), st)
  else
    (Except.ok (),
      { st with table := st.table.filter (fun r => decide (r.id ∉ messageIds)) })

/-- Lines 167-178: guard on `this.db`, then
`DELETE FROM message_queue WHERE id = ?`. -/
def removeMessageFromQueue (messageId : Nat) (st : SQLiteQueueManager) :
    Except QErr Unit × SQLiteQueueManager :=
  if st.db.isNone then (Except.error QErr.notInitialized, st)
  else
    (Except.ok (),
      { st with table := st.table.filter (fun r => decide (r.id ≠ messageId)) })

/-- Lines 184-199: no-op when already closed, otherwise release the
handle and clear the flag.  The durable file (`table`, `seq`) is
untouched.  The close-failure rejection of line 191 is not modelled
(file header). -/
def closeDatabase (st : SQLiteQueueManager) :
    Except QErr Unit × SQLiteQueueManager :=
  if st.db.isNone then (Except.ok (), st)
  else (Except.ok (), { st with db := none, dbInitialized := false })

/-! ## Operation traces and reachable states -/

/-- One API call (state-changing operations; the two reads are pure). -/
inductive Op : Type where
  | init (dirExists schemaOk : Bool) : Op
  | enqueue (topic : String) (payload : JsonVal) (qos : Int) (retain : Bool) : Op
  | removeOldest : Op
  | removeByIds (messageIds : List Nat) : Op
  | removeById (messageId : Nat) : Op
  | close : Op

/-- Post-state of one API call. -/
def step (op : Op) (st : SQLiteQueueManager) : SQLiteQueueManager :=
  match op with
  | .init d s => (initializeDatabase d s st).2
  | .enqueue t p q r => (addMessageToQueue t p q r st).2
  | .removeOldest => (removeOldestMessage st).2
  | .removeByIds ids => (removeMessagesFromQueue ids st).2
  | .removeById i => (removeMessageFromQueue i st).2
  | .close => (closeDatabase st).2

/-- Run a trace of API calls. -/
def run (ops : List Op) (st : SQLiteQueueManager) : SQLiteQueueManager :=
  ops.foldl (fun s op => step op s) st

/-- States reachable from a fresh manager by some trace of API calls. -/
def Reachable (st : SQLiteQueueManager) : Prop :=
  ∃ (b : String) (ops : List Op), run ops (newSQLiteQueueManager b) = st

/-- Identifier assigned by this call on this state, when the call is an
enqueue that succeeds. -/
def assignedId (op : Op) (st : SQLiteQueueManager) : Option Nat :=
  match op with
  | .enqueue _ _ _ _ => if st.db.isNone then none else some (st.seq + 1)
  | _ => none

/-- Chronological list of the identifiers assigned by the successful
enqueues of a trace. -/
def assignedIds : List Op → SQLiteQueueManager → List Nat
  | [], _ => []
  | op :: rest, st => (assignedId op st).toList ++ assignedIds rest (step op st)

/-- Store invariant: rows are in strictly ascending id order and no id
exceeds the `AUTOINCREMENT` sequence. -/
def StoreInv (st : SQLiteQueueManager) : Prop :=
  List.Pairwise (fun a b : Row => a.id < b.id) st.table ∧ ∀ r ∈ st.table, r.id ≤ st.seq

/-- One enqueue request, for stating properties of enqueue sequences. -/
structure Msg : Type where
  topic : String
  payload : JsonVal
  qos : Int
  retain : Bool

/-- Run a sequence of enqueue calls. -/
def enqueueAll (msgs : List Msg) (st : SQLiteQueueManager) : SQLiteQueueManager :=
  msgs.foldl (fun s m => (addMessageToQueue m.topic m.payload m.qos m.retain s).2) st

/-- Observable content of a row apart from its assigned id. -/
def rowData (r : Row) : String × String × Int × Nat :=
  (r.topic, r.payload, r.qos, r.retain)

/-- Observable content an enqueue request should produce. -/
def msgData (m : Msg) : String × String × Int × Nat :=
  (m.topic, jstringify m.payload, m.qos, if m.retain then 1 else 0)

/-! ## Concrete states used by witnesses and counterexamples -/

/-- Freshly initialized store for broker `b1`. -/
def st0 : SQLiteQueueManager :=
  (initializeDatabase true true (newSQLiteQueueManager "b1")).2

/-- One message enqueued. -/
def stA : SQLiteQueueManager :=
  (addMessageToQueue "sensors/a" (JsonVal.str "x") 0 false st0).2

/-- A second message enqueued. -/
def stB : SQLiteQueueManager :=
  (addMessageToQueue "sensors/b" (JsonVal.str "y") 1 true stA).2

/-- Three messages, ids 1, 2, 3. -/
def stFull : SQLiteQueueManager :=
  run [Op.init true true,
       Op.enqueue "t1" JsonVal.null 0 false,
       Op.enqueue "t2" JsonVal.null 0 false,
       Op.enqueue "t3" JsonVal.null 0 false]
    (newSQLiteQueueManager "b1")

/-- 501 messages enqueued: one more than the default `LIMIT` bound. -/
def bigSt : SQLiteQueueManager :=
  run (List.replicate 501 (Op.enqueue "t" JsonVal.null 0 false)) st0

/-! ## Lemmas: digits and characters -/

/-- The serializer's hex digits decode to their value. -/
theorem hexVal_digitChar (d : Nat) (h : d < 16) : hexVal (Nat.digitChar d) = some d := by
  interval_cases d <;> decide

/-- Digit characters are digits. -/
theorem digitChar_isDigit (d : Nat) (h : d < 10) : (Nat.digitChar d).isDigit = true := by
  interval_cases d <;> decide

/-- Decoding one digit character recovers the digit. -/
theorem toNat_digitChar (d : Nat) (h : d < 10) : (Nat.digitChar d).toNat - 48 = d := by
  interval_cases d <;> decide

/-- A digit character is none of the characters the value decoder
dispatches on. -/
theorem isDigit_ne (c : Char) (h : c.isDigit = true) :
    c ≠ 'n' ∧ c ≠ 't' ∧ c ≠ 'f' ∧ c ≠ '"' ∧ c ≠ '[' ∧ c ≠ '\x7b' ∧ c ≠ '-' ∧ c ≠ ']' := by
  refine ⟨?_, ?_, ?_, ?_, ?_, ?_, ?_, ?_⟩ <;>
    (intro hc; rw [hc] at h; exact absurd h (by decide))

/-- The decimal rendering of a natural number is never empty. -/
theorem natChars_ne_nil (m : Nat) : natChars m ≠ [] := by
  unfold natChars
  split
  · simp
  · intro h
    rw [List.reverse_eq_nil_iff, List.map_eq_nil_iff] at h
    simp_all [Nat.digits_eq_nil_iff_eq_zero]

/-- Every character of the decimal rendering is a digit. -/
theorem natChars_isDigit (m : Nat) : ∀ c ∈ natChars m, c.isDigit = true := by
  unfold natChars
  split
  · intro c hc
    simp only [List.mem_singleton] at hc
    subst hc; decide
  · intro c hc
    rw [List.mem_reverse, List.mem_map] at hc
    obtain ⟨d, hd, rfl⟩ := hc
    exact digitChar_isDigit d (Nat.digits_lt_base (by norm_num) hd)

/-- Folding the decoder's digit step over a big-endian digit rendering. -/
theorem foldl_digitChars (L : List Nat) (hL : ∀ d ∈ L, d < 10) (a : Nat) :
    ((L.map Nat.digitChar).reverse).foldl (fun x c => x * 10 + (c.toNat - 48)) a
      = a * 10 ^ L.length + Nat.ofDigits 10 L := by
  induction L generalizing a with
  | nil => simp [Nat.ofDigits]
  | cons d L ih =>
    simp only [List.map_cons, List.reverse_cons, List.foldl_append, List.foldl_cons,
      List.foldl_nil]
    rw [ih (fun x hx => hL x (List.mem_cons_of_mem d hx)),
      toNat_digitChar d (hL d (List.mem_cons_self d L)), Nat.ofDigits_cons]
    simp only [List.length_cons, pow_succ]
    ring

/-- Decoding the decimal rendering of `m` yields `m`. -/
theorem digitsToNat_natChars (m : Nat) : digitsToNat (natChars m) = m := by
  unfold digitsToNat natChars
  split
  · simp_all
  · rw [foldl_digitChars _ (fun d hd => Nat.digits_lt_base (by norm_num) hd) 0]
    simp [Nat.ofDigits_digits]

/-- A `takeWhile` over a satisfied block followed by a blocked rest. -/
theorem takeWhile_append_all (p : Char → Bool) (xs ys : List Char)
    (h : ∀ x ∈ xs, p x = true) : (xs ++ ys).takeWhile p = xs ++ ys.takeWhile p := by
  induction xs with
  | nil => simp
  | cons a xs ih =>
    rw [List.cons_append, List.takeWhile_cons_of_pos (h a (List.mem_cons_self a xs)),
      ih (fun x hx => h x (List.mem_cons_of_mem a hx))]
    rfl

/-- Companion of `takeWhile_append_all` for `dropWhile`. -/
theorem dropWhile_append_all (p : Char → Bool) (xs ys : List Char)
    (h : ∀ x ∈ xs, p x = true) : (xs ++ ys).dropWhile p = ys.dropWhile p := by
  induction xs with
  | nil => simp
  | cons a xs ih =>
    rw [List.cons_append, List.dropWhile_cons_of_pos (h a (List.mem_cons_self a xs)),
      ih (fun x hx => h x (List.mem_cons_of_mem a hx))]

/-- The number decoder inverts the decimal rendering when the rest of
the input does not begin with a digit. -/
theorem parseNatNum_natChars (m : Nat) (rest : List Char) (hr : restOk rest = true) :
    parseNatNum (natChars m ++ rest) = some (m, rest) := by
  have htw : rest.takeWhile Char.isDigit = [] := by
    cases rest with
    | nil => rfl
    | cons c t =>
      unfold restOk at hr
      simp only [Bool.not_eq_true'] at hr
      exact List.takeWhile_cons_of_neg (by simp [hr])
  have hdw : rest.dropWhile Char.isDigit = rest := by
    cases rest with
    | nil => rfl
    | cons c t =>
      unfold restOk at hr
      simp only [Bool.not_eq_true'] at hr
      exact List.dropWhile_cons_of_neg (by simp [hr])
  unfold parseNatNum
  rw [takeWhile_append_all _ _ _ (natChars_isDigit m),
    dropWhile_append_all _ _ _ (natChars_isDigit m), htw, hdw, List.append_nil]
  rw [if_neg (by simpa [List.isEmpty_iff] using natChars_ne_nil m)]
  rw [digitsToNat_natChars]

/-- The string-body decoder inverts `JSON.stringify` string escaping. -/
theorem parseStrBody_escChars (cs rest : List Char) :
    parseStrBody (escChars cs ++ '"' :: rest) = some (cs, rest) := by
  induction cs with
  | nil =>
    rw [show escChars [] ++ '"' :: rest = '"' :: rest from rfl, parseStrBody.eq_def]
    simp
  | cons c cs ih =>
    show parseStrBody ((escChar c ++ escChars cs) ++ '"' :: rest) = _
    rw [List.append_assoc]
    unfold escChar
    by_cases h1 : c = '"'
    · subst h1; rw [if_pos rfl, List.cons_append, List.cons_append, List.nil_append,
        parseStrBody.eq_def]
      simp [ih]
    · rw [if_neg h1]
      by_cases h2 : c = '\\'
      · subst h2; rw [if_pos rfl, List.cons_append, List.cons_append, List.nil_append,
          parseStrBody.eq_def]
        simp [ih]
      · rw [if_neg h2]
        by_cases h3 : c = '\x08'
        · subst h3; rw [if_pos rfl, List.cons_append, List.cons_append, List.nil_append,
            parseStrBody.eq_def]
          simp [ih]
        · rw [if_neg h3]
          by_cases h4 : c = '\x09'
          · subst h4; rw [if_pos rfl, List.cons_append, List.cons_append, List.nil_append,
              parseStrBody.eq_def]
            simp [ih]
          · rw [if_neg h4]
            by_cases h5 : c = '\x0a'
            · subst h5; rw [if_pos rfl, List.cons_append, List.cons_append, List.nil_append,
                parseStrBody.eq_def]
              simp [ih]
            · rw [if_neg h5]
              by_cases h6 : c = '\x0c'
              · subst h6; rw [if_pos rfl, List.cons_append, List.cons_append, List.nil_append,
                  parseStrBody.eq_def]
                simp [ih]
              · rw [if_neg h6]
                by_cases h7 : c = '\x0d'
                · subst h7; rw [if_pos rfl, List.cons_append, List.cons_append,
                    List.nil_append, parseStrBody.eq_def]
                  simp [ih]
                · rw [if_neg h7]
                  by_cases h8 : c.toNat < 0x20
                  · rw [if_pos h8]
                    have e0 : hexVal '0' = some 0 := by decide
                    have ehi : hexVal (Nat.digitChar (c.toNat / 16)) = some (c.toNat / 16) :=
                      hexVal_digitChar _ (by omega)
                    have elo : hexVal (Nat.digitChar (c.toNat % 16)) = some (c.toNat % 16) :=
                      hexVal_digitChar _ (Nat.mod_lt _ (by norm_num))
                    have hc2 : Char.ofNat (c.toNat / 16 * 16 + c.toNat % 16) = c := by
                      rw [show c.toNat / 16 * 16 + c.toNat % 16 = c.toNat by omega,
                        Char.ofNat_toNat]
                    rw [List.cons_append, List.cons_append, List.cons_append,
                      List.cons_append, List.cons_append, List.cons_append,
                      List.nil_append, parseStrBody.eq_def]
                    simp [e0, ehi, elo, hc2, ih]
                  · rw [if_neg h8]
                    rw [List.cons_append, List.nil_append, parseStrBody.eq_def]
                    simp [if_neg h1, if_neg h2, h1, h2, ih]

/-- Serialized values are nonempty and never begin with `]` (the one
character the array-items decoder dispatches on before trying a
value). -/
theorem jchars_head (j : JsonVal) : ∃ c cs, jchars j = c :: cs ∧ c ≠ ']' := by
  cases j with
  | null => exact ⟨'n', _, rfl, by decide⟩
  | bool b => cases b with
    | true => exact ⟨'t', _, rfl, by decide⟩
    | false => exact ⟨'f', _, rfl, by decide⟩
  | num n =>
    show ∃ c cs, intChars n = c :: cs ∧ c ≠ ']'
    unfold intChars
    by_cases hn : n < 0
    · exact ⟨'-', _, by rw [if_pos hn], by decide⟩
    · rw [if_neg hn]
      cases h : natChars n.toNat with
      | nil => exact absurd h (natChars_ne_nil _)
      | cons c cs =>
        refine ⟨c, cs, rfl, ?_⟩
        have hd : c.isDigit = true :=
          natChars_isDigit n.toNat c (by rw [h]; exact List.mem_cons_self c cs)
        exact (isDigit_ne c hd).2.2.2.2.2.2.2
  | str s => exact ⟨'"', _, rfl, by decide⟩
  | arr es => exact ⟨'[', _, rfl, by decide⟩
  | obj fs => exact ⟨'\x7b', _, rfl, by decide⟩

/-- Serialized values have at least one character. -/
theorem jchars_len_pos (j : JsonVal) : 1 ≤ (jchars j).length := by
  obtain ⟨c, cs, hc, _⟩ := jchars_head j
  rw [hc]
  simp

/-- Minimum fuel is positive. -/
theorem sizeV_pos (j : JsonVal) : 1 ≤ sizeV j := by
  cases j <;> simp [sizeV]

/-- Minimum items fuel is positive. -/
theorem sizeA_pos (es : JsonArr) : 1 ≤ sizeA es := by
  cases es <;> simp [sizeA]

/-- Minimum fields fuel is positive. -/
theorem sizeF_pos (fs : JsonObj) : 1 ≤ sizeF fs := by
  cases fs <;> simp [sizeF]

mutual
/-- The fuel needed by a value is at most its serialized length. -/
theorem sizeV_le_len : ∀ j : JsonVal, sizeV j ≤ (jchars j).length
  | .null => by simp [sizeV, jchars]
  | .bool b => by cases b <;> simp [sizeV, jchars]
  | .num n => by
      have := jchars_len_pos (.num n)
      simp only [sizeV]
      omega
  | .str s => by simp [sizeV, jchars]
  | .arr es => by
      have h := sizeA_le_len es
      simp only [sizeV, jchars, List.length_cons, List.length_append, List.length_singleton]
      omega
  | .obj fs => by
      have h := sizeF_le_len fs
      simp only [sizeV, jchars, List.length_cons, List.length_append, List.length_singleton]
      omega

/-- The fuel needed by an element list is at most its serialized length
plus one. -/
theorem sizeA_le_len : ∀ es : JsonArr, sizeA es ≤ (arrChars es).length + 1
  | .nil => by simp [sizeA, arrChars]
  | .cons e .nil => by
      have h1 := sizeV_le_len e
      have h2 := jchars_len_pos e
      simp only [sizeA, sizeA.eq_1, arrChars]
      omega
  | .cons e (.cons e2 tl) => by
      have h1 := sizeV_le_len e
      have h2 := sizeA_le_len (JsonArr.cons e2 tl)
      have h3 := jchars_len_pos e
      simp only [sizeA, arrChars, List.length_append, List.length_cons] at h2 ⊢
      omega

/-- The fuel needed by a field list is at most its serialized length
plus one. -/
theorem sizeF_le_len : ∀ fs : JsonObj, sizeF fs ≤ (objChars fs).length + 1
  | .nil => by simp [sizeF, objChars]
  | .cons k v .nil => by
      have h1 := sizeV_le_len v
      simp only [sizeF, sizeF.eq_1, objChars, List.length_cons, List.length_append]
      omega
  | .cons k v (.cons k2 v2 tl) => by
      have h1 := sizeV_le_len v
      have h2 := sizeF_le_len (JsonObj.cons k2 v2 tl)
      simp only [sizeF, objChars, List.length_append, List.length_cons] at h2 ⊢
      omega
end

/-- Round-trip of decoder against serializer: at sufficient fuel,
values (followed by a non-digit rest), array element lists (followed by
`]`), and object field lists (followed by the closing brace) all decode
back to themselves. -/
theorem rtAll (f : Nat) :
    (∀ j rest, sizeV j ≤ f → restOk rest = true →
        parseVal f (jchars j ++ rest) = some (j, rest)) ∧
    (∀ es rest, sizeA es ≤ f →
        parseItems f (arrChars es ++ ']' :: rest) = some (es, rest)) ∧
    (∀ fs rest, sizeF fs ≤ f →
        parseFields f (objChars fs ++ '\x7d' :: rest) = some (fs, rest)) := by
  induction f with
  | zero =>
    refine ⟨fun j rest hf _ => absurd hf ?_, fun es rest hf => absurd hf ?_,
      fun fs rest hf => absurd hf ?_⟩
    · have := sizeV_pos j; omega
    · have := sizeA_pos es; omega
    · have := sizeF_pos fs; omega
  | succ f ih =>
    obtain ⟨ihV, ihA, ihF⟩ := ih
    refine ⟨?_, ?_, ?_⟩
    · intro j rest hf hr
      cases j with
      | null =>
        rw [show jchars .null ++ rest = 'n' :: 'u' :: 'l' :: 'l' :: rest from rfl,
          parseVal.eq_def]
        simp
      | bool b =>
        cases b with
        | true =>
          rw [show jchars (.bool true) ++ rest = 't' :: 'r' :: 'u' :: 'e' :: rest from rfl,
            parseVal.eq_def]
          simp
        | false =>
          rw [show jchars (.bool false) ++ rest
              = 'f' :: 'a' :: 'l' :: 's' :: 'e' :: rest from rfl, parseVal.eq_def]
          simp
      | num n =>
        rw [show jchars (.num n) = intChars n from rfl]
        unfold intChars
        by_cases hn : n < 0
        · rw [if_pos hn, List.cons_append, parseVal.eq_def]
          have habs : -((n.natAbs : Nat) : Int) = n := by omega
          have habs2 : -(|n|) = n := by rw [abs_of_neg hn, neg_neg]
          simp [parseNatNum_natChars n.natAbs rest hr, habs, habs2]
        · rw [if_neg hn]
          cases hcs : natChars n.toNat with
          | nil => exact absurd hcs (natChars_ne_nil _)
          | cons c cs =>
            have hd : c.isDigit = true :=
              natChars_isDigit n.toNat c (by rw [hcs]; exact List.mem_cons_self c cs)
            obtain ⟨hn1, hn2, hn3, hn4, hn5, hn6, hn7, _⟩ := isDigit_ne c hd
            have hpn : parseNatNum (c :: (cs ++ rest)) = some (n.toNat, rest) := by
              rw [show c :: (cs ++ rest) = natChars n.toNat ++ rest from by rw [hcs]; rfl]
              exact parseNatNum_natChars _ _ hr
            have htn : ((n.toNat : Nat) : Int) = n := Int.toNat_of_nonneg (by omega)
            rw [List.cons_append, parseVal.eq_def]
            simp [hn1, hn2, hn3, hn4, hn5, hn6, hn7, hpn, htn]
      | str s =>
        rw [show jchars (.str s) ++ rest
            = '"' :: (escChars s.data ++ ('"' :: rest)) from by
          simp [jchars, List.append_assoc], parseVal.eq_def]
        simp [parseStrBody_escChars, show String.mk s.data = s from rfl]
      | arr es =>
        have hA : parseItems f (arrChars es ++ ']' :: rest) = some (es, rest) :=
          ihA es rest (by simp only [sizeV] at hf; omega)
        rw [show jchars (.arr es) ++ rest
            = '[' :: (arrChars es ++ (']' :: rest)) from by
          simp [jchars, List.append_assoc], parseVal.eq_def]
        simp [hA]
      | obj fs =>
        have hF : parseFields f (objChars fs ++ '\x7d' :: rest) = some (fs, rest) :=
          ihF fs rest (by simp only [sizeV] at hf; omega)
        rw [show jchars (.obj fs) ++ rest
            = '\x7b' :: (objChars fs ++ ('\x7d' :: rest)) from by
          simp [jchars, List.append_assoc], parseVal.eq_def]
        simp [hF]
    · intro es rest hf
      cases es with
      | nil =>
        rw [show arrChars .nil ++ ']' :: rest = ']' :: rest from rfl, parseItems.eq_def]
        simp
      | cons e tl =>
        obtain ⟨c, cs, hc, hcne⟩ := jchars_head e
        cases tl with
        | nil =>
          have hV : parseVal f (jchars e ++ ']' :: rest) = some (e, ']' :: rest) :=
            ihV e (']' :: rest) (by simp only [sizeA] at hf; omega) (by rfl)
          rw [show arrChars (.cons e .nil) ++ ']' :: rest = jchars e ++ ']' :: rest from by
            simp [arrChars]]
          rw [hc, List.cons_append, parseItems.eq_def]
          rw [hc, List.cons_append] at hV
          simp [hcne, hV]
        | cons e2 tl2 =>
          have hV : parseVal f
              (jchars e ++ ',' :: (arrChars (JsonArr.cons e2 tl2) ++ ']' :: rest))
              = some (e, ',' :: (arrChars (JsonArr.cons e2 tl2) ++ ']' :: rest)) :=
            ihV e _ (by simp only [sizeA] at hf; omega) (by rfl)
          have hI : parseItems f (arrChars (JsonArr.cons e2 tl2) ++ ']' :: rest)
              = some (JsonArr.cons e2 tl2, rest) :=
            ihA _ _ (by simp only [sizeA] at hf ⊢; omega)
          rw [show arrChars (.cons e (.cons e2 tl2)) ++ ']' :: rest
              = jchars e ++ (',' :: (arrChars (JsonArr.cons e2 tl2) ++ ']' :: rest)) from by
            simp [arrChars]]
          rw [hc, List.cons_append, parseItems.eq_def]
          rw [hc, List.cons_append] at hV
          simp [hcne, hV, hI]
    · intro fs rest hf
      cases fs with
      | nil =>
        rw [show objChars .nil ++ '\x7d' :: rest = '\x7d' :: rest from rfl,
          parseFields.eq_def]
        simp
      | cons k v tl =>
        cases tl with
        | nil =>
          have hV : parseVal f (jchars v ++ '\x7d' :: rest) = some (v, '\x7d' :: rest) :=
            ihV v _ (by simp only [sizeF] at hf; omega) (by rfl)
          rw [show objChars (.cons k v .nil) ++ '\x7d' :: rest
              = '"' :: (escChars k.data ++ ('"' :: (':' :: (jchars v ++ '\x7d' :: rest))))
              from by simp [objChars, List.append_assoc], parseFields.eq_def]
          simp [parseStrBody_escChars, hV, show String.mk k.data = k from rfl]
        | cons k2 v2 tl2 =>
          have hV : parseVal f
              (jchars v ++ ',' :: (objChars (JsonObj.cons k2 v2 tl2) ++ '\x7d' :: rest))
              = some (v, ',' :: (objChars (JsonObj.cons k2 v2 tl2) ++ '\x7d' :: rest)) :=
            ihV v _ (by simp only [sizeF] at hf; omega) (by rfl)
          have hF : parseFields f (objChars (JsonObj.cons k2 v2 tl2) ++ '\x7d' :: rest)
              = some (JsonObj.cons k2 v2 tl2, rest) :=
            ihF _ _ (by simp only [sizeF] at hf ⊢; omega)
          rw [show objChars (.cons k v (.cons k2 v2 tl2)) ++ '\x7d' :: rest
              = '"' :: (escChars k.data ++ ('"' :: (':' :: (jchars v
                  ++ ',' :: (objChars (JsonObj.cons k2 v2 tl2) ++ '\x7d' :: rest)))))
              from by simp [objChars, List.append_assoc], parseFields.eq_def]
          simp [parseStrBody_escChars, hV, hF, show String.mk k.data = k from rfl]

/-- Losslessness of the serialized encoding: the decoder inverts
`jstringify` on every JSON value. -/
theorem jparse_jstringify (j : JsonVal) : jparse (jstringify j) = some j := by
  have h : parseVal ((jchars j).length + 1) (jchars j ++ []) = some (j, []) :=
    (rtAll _).1 j [] (Nat.le_trans (sizeV_le_len j) (Nat.le_succ _)) rfl
  rw [List.append_nil] at h
  show (match parseVal ((jchars j).length + 1) (jchars j) with
        | some (j, []) => some j
        | _ => none) = some j
  rw [h]

/-! ## Lemmas: the queue operations -/

/-- The initializer never touches the durable table or sequence
(`CREATE TABLE IF NOT EXISTS`). -/
theorem initializeDatabase_table_seq (d s : Bool) (st : SQLiteQueueManager) :
    (initializeDatabase d s st).2.table = st.table ∧
    (initializeDatabase d s st).2.seq = st.seq := by
  unfold initializeDatabase
  split
  · exact ⟨rfl, rfl⟩
  · by_cases hd : d <;> by_cases hs : s <;> simp [hd, hs]

/-- Invariant transfer along a state with identical table and
sequence. -/
theorem storeInv_of_eq (st st' : SQLiteQueueManager) (h : StoreInv st)
    (ht : st'.table = st.table) (hs : st'.seq = st.seq) : StoreInv st' := by
  refine ⟨ht ▸ h.1, ?_⟩
  intro r hr
  rw [ht] at hr
  rw [hs]
  exact h.2 r hr

/-- Invariant transfer along a deletion. -/
theorem storeInv_filter (st : SQLiteQueueManager) (p : Row → Bool)
    (st' : SQLiteQueueManager) (h : StoreInv st)
    (ht : st'.table = st.table.filter p) (hs : st'.seq = st.seq) : StoreInv st' := by
  refine ⟨?_, ?_⟩
  · rw [ht]
    exact List.Pairwise.sublist (List.filter_sublist _) h.1
  · intro r hr
    rw [ht] at hr
    rw [hs]
    exact h.2 r (List.mem_of_mem_filter hr)

/-- An insert with a fresh `AUTOINCREMENT` id preserves the
invariant. -/
theorem storeInv_enqueue (t : String) (p : JsonVal) (q : Int) (r : Bool)
    (st : SQLiteQueueManager) (h : StoreInv st) :
    StoreInv (addMessageToQueue t p q r st).2 := by
  unfold addMessageToQueue
  split
  · exact h
  · refine ⟨?_, ?_⟩
    · show List.Pairwise _ (st.table ++ [_])
      rw [List.pairwise_append]
      refine ⟨h.1, List.pairwise_singleton _ _, ?_⟩
      intro a ha b hb
      simp only [List.mem_singleton] at hb
      subst hb
      exact Nat.lt_succ_of_le (h.2 a ha)
    · show ∀ r2 ∈ st.table ++ [_], _
      intro r2 hr2
      rw [List.mem_append] at hr2
      rcases hr2 with hr2 | hr2
      · exact Nat.le_succ_of_le (h.2 r2 hr2)
      · simp only [List.mem_singleton] at hr2
        subst hr2
        exact Nat.le_refl _

/-- Every API call preserves the store invariant. -/
theorem storeInv_step (op : Op) (st : SQLiteQueueManager) (h : StoreInv st) :
    StoreInv (step op st) := by
  cases op with
  | init d s =>
    exact storeInv_of_eq st _ h (initializeDatabase_table_seq d s st).1
      (initializeDatabase_table_seq d s st).2
  | enqueue t p q r => exact storeInv_enqueue t p q r st h
  | removeOldest =>
    show StoreInv (removeOldestMessage st).2
    unfold removeOldestMessage
    split
    · exact h
    · split
      · exact h
      · exact storeInv_filter st _ _ h rfl rfl
  | removeByIds ids =>
    show StoreInv (removeMessagesFromQueue ids st).2
    unfold removeMessagesFromQueue
    split
    · exact h
    · exact storeInv_filter st _ _ h rfl rfl
  | removeById i =>
    show StoreInv (removeMessageFromQueue i st).2
    unfold removeMessageFromQueue
    split
    · exact h
    · exact storeInv_filter st _ _ h rfl rfl
  | close =>
    show StoreInv (closeDatabase st).2
    unfold closeDatabase
    split
    · exact h
    · exact storeInv_of_eq st _ h rfl rfl

/-- The invariant holds along any trace. -/
theorem storeInv_run (ops : List Op) (st : SQLiteQueueManager) (h : StoreInv st) :
    StoreInv (run ops st) := by
  induction ops generalizing st with
  | nil => exact h
  | cons op ops ih => exact ih _ (storeInv_step op st h)

/-- Every reachable state satisfies the store invariant. -/
theorem storeInv_reachable (st : SQLiteQueueManager) (h : Reachable st) : StoreInv st := by
  obtain ⟨b, ops, rfl⟩ := h
  refine storeInv_run ops _ ⟨List.Pairwise.nil, ?_⟩
  intro r hr
  exact absurd hr (List.not_mem_nil r)

/-- The sequence never decreases along an API call. -/
theorem seq_step_mono (op : Op) (st : SQLiteQueueManager) : st.seq ≤ (step op st).seq := by
  cases op with
  | init d s => exact Nat.le_of_eq (initializeDatabase_table_seq d s st).2.symm
  | enqueue t p q r =>
    show st.seq ≤ (addMessageToQueue t p q r st).2.seq
    unfold addMessageToQueue
    split
    · exact Nat.le_refl _
    · exact Nat.le_succ _
  | removeOldest =>
    show st.seq ≤ (removeOldestMessage st).2.seq
    unfold removeOldestMessage
    split
    · exact Nat.le_refl _
    · split <;> exact Nat.le_refl _
  | removeByIds ids =>
    show st.seq ≤ (removeMessagesFromQueue ids st).2.seq
    unfold removeMessagesFromQueue
    split <;> exact Nat.le_refl _
  | removeById i =>
    show st.seq ≤ (removeMessageFromQueue i st).2.seq
    unfold removeMessageFromQueue
    split <;> exact Nat.le_refl _
  | close =>
    show st.seq ≤ (closeDatabase st).2.seq
    unfold closeDatabase
    split <;> exact Nat.le_refl _

/-- Identifiers assigned along a trace are strictly above the starting
sequence. -/
theorem assignedIds_gt (ops : List Op) (st : SQLiteQueueManager) :
    ∀ i ∈ assignedIds ops st, st.seq < i := by
  induction ops generalizing st with
  | nil =>
    intro i hi
    exact absurd hi (List.not_mem_nil i)
  | cons op ops ih =>
    intro i hi
    unfold assignedIds at hi
    rw [List.mem_append] at hi
    rcases hi with hi | hi
    · cases op with
      | enqueue t p q r =>
        by_cases hdb : st.db.isNone
        · simp [assignedId, hdb] at hi
        · simp [assignedId, hdb] at hi
          omega
      | init d s => simp [assignedId] at hi
      | removeOldest => simp [assignedId] at hi
      | removeByIds ids => simp [assignedId] at hi
      | removeById m => simp [assignedId] at hi
      | close => simp [assignedId] at hi
    · have h2 := ih (step op st) i hi
      have h3 := seq_step_mono op st
      omega

/-- A successful enqueue bumps the sequence by exactly one. -/
theorem enqueue_seq (t : String) (p : JsonVal) (q : Int) (r : Bool)
    (st : SQLiteQueueManager) (h : st.db.isNone = false) :
    (addMessageToQueue t p q r st).2.seq = st.seq + 1 := by
  unfold addMessageToQueue
  rw [if_neg (by rw [h]; exact Bool.false_ne_true)]

/-- Identifiers assigned along a trace are strictly increasing in
chronological order. -/
theorem assignedIds_pairwise (ops : List Op) (st : SQLiteQueueManager) :
    List.Pairwise (fun a b : Nat => a < b) (assignedIds ops st) := by
  induction ops generalizing st with
  | nil => exact List.Pairwise.nil
  | cons op ops ih =>
    unfold assignedIds
    rw [List.pairwise_append]
    refine ⟨?_, ih _, ?_⟩
    · cases h : assignedId op st with
      | none => simp
      | some i => simp
    · intro a ha b hb
      have hbgt := assignedIds_gt ops (step op st) b hb
      cases op with
      | enqueue t p q r =>
        by_cases hdb : st.db.isNone
        · simp [assignedId, hdb] at ha
        · simp [assignedId, hdb] at ha
          subst ha
          have hseq : (step (Op.enqueue t p q r) st).seq = st.seq + 1 :=
            enqueue_seq t p q r st (by simp only [Bool.not_eq_true] at hdb; exact hdb)
          omega
      | init d s => simp [assignedId] at ha
      | removeOldest => simp [assignedId] at ha
      | removeByIds ids => simp [assignedId] at ha
      | removeById m => simp [assignedId] at ha
      | close => simp [assignedId] at ha

/-- Shape of one successful enqueue. -/
theorem addMessageToQueue_some (t : String) (p : JsonVal) (q : Int) (r : Bool)
    (st : SQLiteQueueManager) (h : st.db.isNone = false) :
    addMessageToQueue t p q r st =
      (Except.ok (),
        { st with
            table := st.table ++
              [{ id := st.seq + 1, topic := t, payload := jstringify p, qos := q,
                 retain := if r then 1 else 0 }]
            seq := st.seq + 1 }) := by
  unfold addMessageToQueue
  rw [if_neg (by rw [h]; exact Bool.false_ne_true)]

/-- Enqueue sequences preserve the handle and append exactly their
messages, in order. -/
theorem enqueueAll_spec (msgs : List Msg) (st : SQLiteQueueManager)
    (h : st.db.isNone = false) :
    (enqueueAll msgs st).db = st.db ∧
    (enqueueAll msgs st).table.map rowData = st.table.map rowData ++ msgs.map msgData := by
  induction msgs generalizing st with
  | nil => simp [enqueueAll]
  | cons m ms ih =>
    have hstep := addMessageToQueue_some m.topic m.payload m.qos m.retain st h
    have hdb2 : ((addMessageToQueue m.topic m.payload m.qos m.retain st).2).db = st.db := by
      rw [hstep]
    have hdbn : ((addMessageToQueue m.topic m.payload m.qos m.retain st).2).db.isNone
        = false := by rw [hdb2]; exact h
    have hfold : enqueueAll (m :: ms) st
        = enqueueAll ms ((addMessageToQueue m.topic m.payload m.qos m.retain st).2) := rfl
    obtain ⟨ih1, ih2⟩ := ih _ hdbn
    rw [hfold]
    refine ⟨by rw [ih1, hdb2], ?_⟩
    rw [ih2, hstep]
    show _ = st.table.map rowData ++ (msgData m :: ms.map msgData)
    rw [List.map_append, List.append_assoc]
    rfl

/-- A left fold of `min` over elements all at least the seed keeps the
seed. -/
theorem foldl_min_eq (l : List Nat) (a : Nat) (h : ∀ x ∈ l, a ≤ x) :
    l.foldl min a = a := by
  induction l generalizing a with
  | nil => rfl
  | cons b l ih =>
    rw [List.foldl_cons, Nat.min_eq_left (h b (List.mem_cons_self b l))]
    exact ih a (fun x hx => h x (List.mem_cons_of_mem b hx))

/-- On an id-sorted table `MIN(id)` is the head's id. -/
theorem min?_head_sorted (r0 : Row) (rest : List Row)
    (h : List.Pairwise (fun a b : Row => a.id < b.id) (r0 :: rest)) :
    (((r0 :: rest).map Row.id).min?) = some r0.id := by
  rw [List.map_cons, List.min?_cons']
  congr 1
  apply foldl_min_eq
  intro x hx
  rw [List.mem_map] at hx
  obtain ⟨r, hr, rfl⟩ := hx
  exact Nat.le_of_lt ((List.pairwise_cons.mp h).1 r hr)

/-- Deleting the head's id from an id-sorted table removes exactly the
head. -/
theorem filter_ne_head (r0 : Row) (rest : List Row)
    (h : List.Pairwise (fun a b : Row => a.id < b.id) (r0 :: rest)) :
    (r0 :: rest).filter (fun r => decide (r.id ≠ r0.id)) = rest := by
  rw [List.filter_cons]
  rw [if_neg (by simp)]
  apply List.filter_eq_self.mpr
  intro a ha
  have hlt := (List.pairwise_cons.mp h).1 a ha
  simp only [decide_eq_true_eq]
  omega

/-! ## Claim theorems -/

/-- C1: for every reachable store state, `list(limit)` returns messages
drawn from the pending table, sorted in ascending identifier order
(FIFO), at most `limit` of them when `limit` is non-negative; and after
any sequence of successful enqueues on an initialized empty store,
`list()` (default limit) returns exactly the enqueued messages, in the
order their identifiers were assigned. -/
theorem C1_list_fifo :
    (∀ st : SQLiteQueueManager, Reachable st → ∀ limit : Int,
        List.Pairwise (fun a b : Row => a.id < b.id) (getMessagesFromQueue limit st) ∧
        List.Sublist (getMessagesFromQueue limit st) st.table ∧
        (0 ≤ limit → (getMessagesFromQueue limit st).length ≤ limit.toNat)) ∧
    (∀ (st : SQLiteQueueManager) (h : Nat) (msgs : List Msg),
        st.db = some h → st.table = [] → msgs.length ≤ 500 →
        (getMessagesFromQueueDefault (enqueueAll msgs st)).map rowData
          = msgs.map msgData) := by
  constructor
  · intro st hreach limit
    have hinv := storeInv_reachable st hreach
    unfold getMessagesFromQueue
    by_cases hdb : st.db.isNone
    · simp [hdb]
    · rw [if_neg hdb]
      by_cases hneg : limit < 0
      · rw [if_pos hneg]
        exact ⟨hinv.1, List.Sublist.refl _, fun hge => absurd hneg (by omega)⟩
      · rw [if_neg hneg]
        refine ⟨List.Pairwise.sublist (List.take_sublist _ _) hinv.1,
          List.take_sublist _ _, fun _ => ?_⟩
        rw [List.length_take]
        omega
  · intro st h msgs hdb htable hlen
    have hdbn : st.db.isNone = false := by rw [hdb]; rfl
    obtain ⟨hdb2, htab2⟩ := enqueueAll_spec msgs st hdbn
    have hlen2 : (enqueueAll msgs st).table.length = msgs.length := by
      have hmap := congrArg List.length htab2
      simpa [htable] using hmap
    unfold getMessagesFromQueueDefault getMessagesFromQueue
    rw [if_neg (by rw [hdb2, hdb]; exact Bool.false_ne_true)]
    rw [if_neg (by norm_num)]
    rw [List.take_of_length_le (by rw [hlen2]; simpa using hlen)]
    rw [htab2, htable]
    rfl

/-- Witness for C1 at a concrete two-enqueue trace. -/
theorem C1_list_fifo_witness :
    (getMessagesFromQueueDefault (enqueueAll
        [⟨"sensors/a", JsonVal.str "x", 0, false⟩, ⟨"sensors/b", JsonVal.str "y", 1, true⟩]
        st0)).map rowData
      = [("sensors/a", jstringify (JsonVal.str "x"), 0, 0),
         ("sensors/b", jstringify (JsonVal.str "y"), 1, 1)] := by
  rw [C1_list_fifo.2 st0 1
    [⟨"sensors/a", JsonVal.str "x", 0, false⟩, ⟨"sensors/b", JsonVal.str "y", 1, true⟩]
    rfl rfl (by norm_num)]
  rfl

/-- C3: along every trace of API calls on a fresh store — traces may
close and re-initialize the store — the identifiers assigned by the
successful enqueues are strictly increasing in chronological order
(each strictly above every previously assigned one) and no identifier
is ever reused. -/
theorem C3_ids_strictly_increasing (b : String) (ops : List Op) :
    List.Pairwise (fun i j : Nat => i < j)
      (assignedIds ops (newSQLiteQueueManager b)) ∧
    (assignedIds ops (newSQLiteQueueManager b)).Nodup := by
  refine ⟨assignedIds_pairwise ops _, ?_⟩
  exact List.Pairwise.imp (fun hij => Nat.ne_of_lt hij) (assignedIds_pairwise ops _)

/-- Close always clears the handle. -/
theorem closeDatabase_db (st : SQLiteQueueManager) : (closeDatabase st).2.db = none := by
  unfold closeDatabase
  split
  · next hcond => exact Option.isNone_iff_eq_none.mp hcond
  · rfl

/-- C4: on a store without a handle (a never-initialized store is born
without one, and closing clears it), the mutating operations `enqueue`,
`removeOldest` and `removeById` fail with `NotInitialized`, while the
read-only queries return the safe defaults: `length()` is 0 and
`list(limit)` is the empty sequence, without error. -/
theorem C4_uninitialized (st : SQLiteQueueManager) (hdb : st.db = none) :
    (∀ t p q r, (addMessageToQueue t p q r st).1 = Except.error QErr.notInitialized) ∧
    (removeOldestMessage st).1 = Except.error QErr.notInitialized ∧
    (∀ i, (removeMessageFromQueue i st).1 = Except.error QErr.notInitialized) ∧
    getQueueLength st = 0 ∧
    (∀ limit, getMessagesFromQueue limit st = []) ∧
    (∀ b, (newSQLiteQueueManager b).db = none) ∧
    (∀ st2 : SQLiteQueueManager, (closeDatabase st2).2.db = none) := by
  have hcond : st.db.isNone = true := by rw [hdb]; rfl
  refine ⟨?_, ?_, ?_, ?_, ?_, fun b => rfl, closeDatabase_db⟩
  · intro t p q r
    unfold addMessageToQueue
    rw [if_pos hcond]
  · unfold removeOldestMessage
    rw [if_pos hcond]
  · intro i
    unfold removeMessageFromQueue
    rw [if_pos hcond]
  · unfold getQueueLength
    rw [if_pos hcond]
  · intro limit
    unfold getMessagesFromQueue
    rw [if_pos hcond]

/-- Witness for C4 at a freshly constructed store. -/
theorem C4_uninitialized_witness :
    (addMessageToQueue "t" JsonVal.null 0 false (newSQLiteQueueManager "b1")).1
        = Except.error QErr.notInitialized ∧
    getQueueLength (newSQLiteQueueManager "b1") = 0 ∧
    getMessagesFromQueue 7 (newSQLiteQueueManager "b1") = [] := by
  obtain ⟨h1, _, _, h4, h5, _, _⟩ := C4_uninitialized (newSQLiteQueueManager "b1") rfl
  exact ⟨h1 "t" JsonVal.null 0 false, h4, h5 7⟩

/-- C5: on a reachable store with a handle, `removeOldest()` on an
empty queue is a no-op returning success and leaving the state (hence
`length()`) unchanged; on a non-empty queue it succeeds, deletes
exactly the message with the smallest surviving identifier (the head of
the id-sorted table), and decreases `length()` by exactly one. -/
theorem C5_removeOldest (st : SQLiteQueueManager) (hre : Reachable st)
    (hdb : st.db.isNone = false) :
    (st.table = [] → removeOldestMessage st = (Except.ok (), st)) ∧
    (∀ r0 rest, st.table = r0 :: rest →
        (removeOldestMessage st).1 = Except.ok () ∧
        ((removeOldestMessage st).2).table = rest ∧
        (∀ r ∈ st.table, r0.id ≤ r.id) ∧
        getQueueLength ((removeOldestMessage st).2) + 1 = getQueueLength st) := by
  have hinv := storeInv_reachable st hre
  have hne : ¬ st.db.isNone = true := by rw [hdb]; exact Bool.false_ne_true
  constructor
  · intro hempty
    unfold removeOldestMessage
    rw [if_neg hne, hempty]
    rfl
  · intro r0 rest htab
    have hsorted : List.Pairwise (fun a b : Row => a.id < b.id) (r0 :: rest) :=
      htab ▸ hinv.1
    have hge : ∀ r ∈ st.table, r0.id ≤ r.id := by
      rw [htab]
      intro r hr
      rcases List.mem_cons.mp hr with hr | hr
      · rw [hr]
      · exact Nat.le_of_lt ((List.pairwise_cons.mp hsorted).1 r hr)
    have hmin := min?_head_sorted r0 rest hsorted
    have hfil := filter_ne_head r0 rest hsorted
    have hpost : removeOldestMessage st = (Except.ok (), { st with table := rest }) := by
      unfold removeOldestMessage
      rw [if_neg hne, htab, hmin]
      show (Except.ok (),
        { st with table := (r0 :: rest).filter (fun r => decide (r.id ≠ r0.id)) }) = _
      rw [hfil]
    refine ⟨by rw [hpost], by rw [hpost], hge, ?_⟩
    rw [hpost]
    unfold getQueueLength
    show (if st.db.isNone then 0 else rest.length) + 1
      = (if st.db.isNone then 0 else st.table.length)
    rw [if_neg hne, if_neg hne, htab]
    rfl

/-- Witness for C5 on a one-message store. -/
theorem C5_removeOldest_witness :
    (removeOldestMessage stA).1 = Except.ok () ∧
    ((removeOldestMessage stA).2).table = [] ∧
    getQueueLength ((removeOldestMessage stA).2) + 1 = getQueueLength stA := by
  have h := (C5_removeOldest stA ⟨"b1", [Op.init true true,
      Op.enqueue "sensors/a" (JsonVal.str "x") 0 false], rfl⟩ rfl).2
      ⟨1, "sensors/a", jstringify (JsonVal.str "x"), 0, 0⟩ [] rfl
  exact ⟨h.1, h.2.1, h.2.2.2⟩

/-- C6: `removeByIds` always resolves successfully; it is a no-op
(state unchanged) when the id list is empty or the store has no handle;
and on a store with a handle the surviving rows are exactly the
previously present rows whose id is not listed — listed ids that are
present are deleted, listed ids that are absent are silently
ignored. -/
theorem C6_removeByIds (messageIds : List Nat) (st : SQLiteQueueManager) :
    (removeMessagesFromQueue messageIds st).1 = Except.ok () ∧
    (messageIds = [] ∨ st.db = none → (removeMessagesFromQueue messageIds st).2 = st) ∧
    (st.db.isNone = false →
        ∀ r, r ∈ ((removeMessagesFromQueue messageIds st).2).table
          ↔ (r ∈ st.table ∧ r.id ∉ messageIds)) := by
  unfold removeMessagesFromQueue
  by_cases hc : st.db.isNone = true ∨ messageIds.length = 0
  · rw [if_pos hc]
    refine ⟨rfl, fun _ => rfl, ?_⟩
    intro hdb r
    have hids : messageIds = [] := by
      rcases hc with hc | hc
      · rw [hdb] at hc
        exact absurd hc Bool.false_ne_true
      · exact List.length_eq_zero.mp hc
    subst hids
    simp
  · rw [if_neg hc]
    refine ⟨rfl, ?_, ?_⟩
    · intro hor
      exfalso
      rcases hor with h | h
      · exact hc (Or.inr (by rw [h]; rfl))
      · exact hc (Or.inl (by rw [h]; rfl))
    · intro hdb r
      show r ∈ st.table.filter (fun r => decide (r.id ∉ messageIds)) ↔ _
      rw [List.mem_filter]
      simp

/-- Witness for C6: removing ids 1 and 3 from a queue holding ids
1, 2, 3 succeeds and leaves exactly id 2. -/
theorem C6_removeByIds_witness :
    (removeMessagesFromQueue [1, 3] stFull).1 = Except.ok () ∧
    (∀ r, r ∈ ((removeMessagesFromQueue [1, 3] stFull).2).table
        ↔ (r ∈ stFull.table ∧ r.id ∉ ([1, 3] : List Nat))) ∧
    ((removeMessagesFromQueue [1, 3] stFull).2).table.map Row.id = [2] := by
  refine ⟨(C6_removeByIds [1, 3] stFull).1, (C6_removeByIds [1, 3] stFull).2.2 rfl, ?_⟩
  rfl

/-- C2 counterexample: `stA` is an initialized store already holding
one message (topic `"sensors/a"`); enqueuing a second message with
topic `"sensors/b"` and immediately calling `list(1)` returns exactly
one message — but the OLD one, topic `"sensors/a"`, because
`SELECT * ... LIMIT 1` yields the row with the smallest id.  So the
claim fails for initialized stores that are not empty. -/
theorem C2_counterexample :
    stA.db.isSome = true ∧
    stB = (addMessageToQueue "sensors/b" (JsonVal.str "y") 1 true stA).2 ∧
    (getMessagesFromQueue 1 stB).map Row.topic = ["sensors/a"] ∧
    "sensors/a" ≠ "sensors/b" := by
  refine ⟨rfl, rfl, rfl, by decide⟩

/-- C2 amended: on an initialized EMPTY store, `enqueue` followed
immediately by `list(1)` succeeds and returns exactly one message whose
topic, qos and (0/1-encoded) retain flag equal the enqueued inputs and
whose stored payload is the serialized payload, which decodes back
losslessly. -/
theorem C2_enqueue_list_roundtrip (topic : String) (payload : JsonVal) (qos : Int)
    (retain : Bool) (st : SQLiteQueueManager) (hdb : st.db.isNone = false)
    (hempty : st.table = []) :
    (addMessageToQueue topic payload qos retain st).1 = Except.ok () ∧
    getMessagesFromQueue 1 ((addMessageToQueue topic payload qos retain st).2)
      = [{ id := st.seq + 1, topic := topic, payload := jstringify payload, qos := qos,
           retain := if retain then 1 else 0 }] ∧
    jparse (jstringify payload) = some payload := by
  rw [addMessageToQueue_some _ _ _ _ _ hdb]
  refine ⟨rfl, ?_, jparse_jstringify payload⟩
  show getMessagesFromQueue 1
      ({ st with
          table := st.table ++
            [{ id := st.seq + 1, topic := topic, payload := jstringify payload, qos := qos,
               retain := if retain then 1 else 0 }]
          seq := st.seq + 1 }) = _
  unfold getMessagesFromQueue
  rw [show ({ st with
          table := st.table ++
            [{ id := st.seq + 1, topic := topic, payload := jstringify payload, qos := qos,
               retain := if retain then 1 else 0 }]
          seq := st.seq + 1 } : SQLiteQueueManager).db = st.db from rfl]
  rw [if_neg (by rw [hdb]; exact Bool.false_ne_true), if_neg (by norm_num)]
  show (st.table ++ _).take (1 : Int).toNat = _
  rw [hempty]
  rfl

/-- Witness for C2 with an object payload. -/
theorem C2_enqueue_list_roundtrip_witness :
    (addMessageToQueue "sensors/t1"
        (JsonVal.obj (JsonObj.cons "v" (JsonVal.str "42") JsonObj.nil)) 1 false st0).1
      = Except.ok () ∧
    getMessagesFromQueue 1 ((addMessageToQueue "sensors/t1"
        (JsonVal.obj (JsonObj.cons "v" (JsonVal.str "42") JsonObj.nil)) 1 false st0).2)
      = [{ id := 1, topic := "sensors/t1",
           payload := jstringify (JsonVal.obj (JsonObj.cons "v" (JsonVal.str "42")
             JsonObj.nil)),
           qos := 1, retain := 0 }] ∧
    jparse (jstringify (JsonVal.obj (JsonObj.cons "v" (JsonVal.str "42") JsonObj.nil)))
      = some (JsonVal.obj (JsonObj.cons "v" (JsonVal.str "42") JsonObj.nil)) := by
  have h := C2_enqueue_list_roundtrip "sensors/t1"
    (JsonVal.obj (JsonObj.cons "v" (JsonVal.str "42") JsonObj.nil)) 1 false st0 rfl rfl
  exact ⟨h.1, by rw [h.2.1]; rfl, h.2.2⟩

/-- C7 counterexample: on the initialized store `st0`, enqueuing with
the empty-string topic succeeds and durably persists a row whose topic
is the empty string — the call does succeed, the non-empty-topic
constraint is not enforced anywhere (the schema's `NOT NULL` admits the
empty string). -/
theorem C7_counterexample :
    (addMessageToQueue "" (JsonVal.str "x") 0 false st0).1 = Except.ok () ∧
    ((addMessageToQueue "" (JsonVal.str "x") 0 false st0).2).table.map Row.topic = [""] :=
  ⟨rfl, rfl⟩

/-- C7 amended: `enqueue` performs no topic validation: on any store
with a handle, a call with the empty-string topic succeeds and durably
appends a row carrying the empty topic (only SQL `NULL` is excluded by
the schema, and a JavaScript string is never `NULL`). -/
theorem C7_amended (payload : JsonVal) (qos : Int) (retain : Bool)
    (st : SQLiteQueueManager) (h : st.db.isNone = false) :
    (addMessageToQueue "" payload qos retain st).1 = Except.ok () ∧
    ((addMessageToQueue "" payload qos retain st).2).table
      = st.table ++ [{ id := st.seq + 1, topic := "", payload := jstringify payload,
                       qos := qos, retain := if retain then 1 else 0 }] := by
  rw [addMessageToQueue_some _ _ _ _ _ h]
  exact ⟨rfl, rfl⟩

/-- Witness for the amended C7. -/
theorem C7_amended_witness :
    (addMessageToQueue "" (JsonVal.bool true) 2 true st0).1 = Except.ok () ∧
    ((addMessageToQueue "" (JsonVal.bool true) 2 true st0).2).table
      = [{ id := 1, topic := "", payload := jstringify (JsonVal.bool true), qos := 2,
           retain := 1 }] := by
  have h := C7_amended (JsonVal.bool true) 2 true st0 rfl
  exact ⟨h.1, by rw [h.2]; rfl⟩

/-- Enqueue never changes the handle. -/
theorem addMessageToQueue_db (t : String) (p : JsonVal) (q : Int) (r : Bool)
    (st : SQLiteQueueManager) : ((addMessageToQueue t p q r st).2).db = st.db := by
  unfold addMessageToQueue
  split <;> rfl

/-- Repeated enqueues keep the handle. -/
theorem run_enqueue_db (n : Nat) (st : SQLiteQueueManager) :
    (run (List.replicate n (Op.enqueue "t" JsonVal.null 0 false)) st).db = st.db := by
  induction n generalizing st with
  | zero => rfl
  | succ n ih =>
    rw [List.replicate_succ]
    show (run (List.replicate n (Op.enqueue "t" JsonVal.null 0 false))
      ((addMessageToQueue "t" JsonVal.null 0 false st).2)).db = st.db
    rw [ih, addMessageToQueue_db]

/-- Table growth under repeated enqueues. -/
theorem run_enqueue_length (n : Nat) (st : SQLiteQueueManager)
    (h : st.db.isNone = false) :
    (run (List.replicate n (Op.enqueue "t" JsonVal.null 0 false)) st).table.length
      = st.table.length + n := by
  induction n generalizing st with
  | zero => rfl
  | succ n ih =>
    rw [List.replicate_succ]
    show (run (List.replicate n (Op.enqueue "t" JsonVal.null 0 false))
      ((addMessageToQueue "t" JsonVal.null 0 false st).2)).table.length
      = st.table.length + (n + 1)
    rw [ih _ (by rw [addMessageToQueue_db]; exact h)]
    have htab : ((addMessageToQueue "t" JsonVal.null 0 false st).2).table.length
        = st.table.length + 1 := by
      rw [addMessageToQueue_some "t" JsonVal.null 0 false st h]
      show (st.table ++ [_]).length = _
      rw [List.length_append]
      rfl
    omega

/-- C8 counterexample: `-1 ≤ 0`, yet on a reachable store holding 501
pending messages `list(-1)` returns all 501 rows — strictly more than
the default bound of 500.  SQLite treats a negative bound parameter in
`LIMIT ?` as "no limit at all", not as "use the default". -/
theorem C8_counterexample :
    (-1 : Int) ≤ 0 ∧ 500 < (getMessagesFromQueue (-1) bigSt).length := by
  refine ⟨by norm_num, ?_⟩
  have hlen : bigSt.table.length = 501 := run_enqueue_length 501 st0 rfl
  have hshape : getMessagesFromQueue (-1) bigSt = bigSt.table := by
    unfold getMessagesFromQueue
    have hne2 : ¬ bigSt.db.isNone = true := by
      rw [show bigSt.db = st0.db from run_enqueue_db 501 st0]
      exact Bool.false_ne_true
    rw [if_neg hne2, if_pos (by norm_num)]
  rw [hshape, hlen]
  norm_num

/-- C8 amended: non-positive limits are not clamped to a default bound:
`limit = 0` returns the empty list, while any negative limit removes
the bound entirely and returns every pending message; the bound of 500
applies only through the default argument `limit = 500`. -/
theorem C8_amended (st : SQLiteQueueManager) (limit : Int) (hneg : limit < 0) :
    getMessagesFromQueue 0 st = [] ∧
    getMessagesFromQueue limit st = (if st.db.isNone then [] else st.table) ∧
    getMessagesFromQueueDefault st = getMessagesFromQueue 500 st := by
  refine ⟨?_, ?_, rfl⟩
  · unfold getMessagesFromQueue
    by_cases hdb : st.db.isNone
    · rw [if_pos hdb]
    · rw [if_neg hdb, if_neg (by norm_num)]
      rfl
  · unfold getMessagesFromQueue
    by_cases hdb : st.db.isNone
    · rw [if_pos hdb, if_pos hdb]
    · rw [if_neg hdb, if_neg hdb, if_pos hneg]

/-- Witness for the amended C8. -/
theorem C8_amended_witness :
    getMessagesFromQueue 0 stA = [] ∧
    getMessagesFromQueue (-1) stA = (if stA.db.isNone then [] else stA.table) := by
  have h := C8_amended stA (-1) (by norm_num)
  exact ⟨h.1, h.2.1⟩

/-- C9: `initialize()` is idempotent — when the store is already
initialized (flag set and handle present) it resolves with the existing
handle and the state is unchanged; in particular the directory-creation,
file-open and schema-statement counters are untouched, so no side
effect occurs. -/
theorem C9_initialize_idempotent (st : SQLiteQueueManager) (d s : Bool) (h : Nat)
    (hi : st.dbInitialized = true) (hdb : st.db = some h) :
    initializeDatabase d s st = (Except.ok h, st) := by
  unfold initializeDatabase
  rw [if_pos ⟨hi, by rw [hdb]; rfl⟩, hdb]
  rfl

/-- Witness for C9 at the initialized store `st0`. -/
theorem C9_initialize_idempotent_witness :
    initializeDatabase false false st0 = (Except.ok 1, st0) :=
  C9_initialize_idempotent st0 false false 1 rfl rfl

/-- C10: the `NotInitialized` failure of the mutating operations is
governed exactly by nullity of the handle — not by the initialized
flag; and an `initialize()` on a not-yet-initialized store that fails
during schema creation rejects with the schema error while leaving the
handle assigned (it is set before the `CREATE TABLE` callback runs) and
the flag unset, so a subsequent enqueue on that store does not fail
with `NotInitialized`. -/
theorem C10_guard_is_handle :
    (∀ (st : SQLiteQueueManager) t p q r,
        ((addMessageToQueue t p q r st).1 = Except.error QErr.notInitialized
          ↔ st.db = none)) ∧
    (∀ st : SQLiteQueueManager,
        ((removeOldestMessage st).1 = Except.error QErr.notInitialized ↔ st.db = none)) ∧
    (∀ (st : SQLiteQueueManager) i,
        ((removeMessageFromQueue i st).1 = Except.error QErr.notInitialized
          ↔ st.db = none)) ∧
    (∀ (st : SQLiteQueueManager) d, st.dbInitialized = false →
        (initializeDatabase d false st).1 = Except.error QErr.schemaError ∧
        ((initializeDatabase d false st).2).db.isSome = true ∧
        ((initializeDatabase d false st).2).dbInitialized = false ∧
        (∀ t p q r, (addMessageToQueue t p q r ((initializeDatabase d false st).2)).1
            ≠ Except.error QErr.notInitialized)) := by
  refine ⟨?_, ?_, ?_, ?_⟩
  · intro st t p q r
    unfold addMessageToQueue
    by_cases hdb : st.db.isNone
    · rw [if_pos hdb]
      exact iff_of_true rfl (Option.isNone_iff_eq_none.mp hdb)
    · rw [if_neg hdb]
      exact iff_of_false (by simp) (fun hEq => hdb (by rw [hEq]; rfl))
  · intro st
    unfold removeOldestMessage
    by_cases hdb : st.db.isNone
    · rw [if_pos hdb]
      exact iff_of_true rfl (Option.isNone_iff_eq_none.mp hdb)
    · rw [if_neg hdb]
      cases hm : (st.table.map Row.id).min? with
      | none =>
        exact iff_of_false (by simp) (fun hEq => hdb (by rw [hEq]; rfl))
      | some m =>
        exact iff_of_false (by simp) (fun hEq => hdb (by rw [hEq]; rfl))
  · intro st i
    unfold removeMessageFromQueue
    by_cases hdb : st.db.isNone
    · rw [if_pos hdb]
      exact iff_of_true rfl (Option.isNone_iff_eq_none.mp hdb)
    · rw [if_neg hdb]
      exact iff_of_false (by simp) (fun hEq => hdb (by rw [hEq]; rfl))
  · intro st d hf
    have hcond : ¬ (st.dbInitialized = true ∧ st.db.isSome = true) := by
      intro hand
      rw [hf] at hand
      exact Bool.false_ne_true hand.1
    unfold initializeDatabase
    rw [if_neg hcond]
    cases d with
    | true =>
      refine ⟨rfl, rfl, hf, ?_⟩
      intro t p q r
      simp [addMessageToQueue]
    | false =>
      refine ⟨rfl, rfl, hf, ?_⟩
      intro t p q r
      simp [addMessageToQueue]

/-- Witness for C10: schema creation fails on a fresh store. -/
theorem C10_guard_is_handle_witness :
    (initializeDatabase true false (newSQLiteQueueManager "b1")).1
        = Except.error QErr.schemaError ∧
    ((initializeDatabase true false (newSQLiteQueueManager "b1")).2).dbInitialized
        = false ∧
    (addMessageToQueue "t" JsonVal.null 0 false
        ((initializeDatabase true false (newSQLiteQueueManager "b1")).2)).1
      ≠ Except.error QErr.notInitialized := by
  have h := C10_guard_is_handle.2.2.2 (newSQLiteQueueManager "b1") true rfl
  exact ⟨h.1, h.2.2.1, h.2.2.2 "t" JsonVal.null 0 false⟩
